import Mathlib

/-!
Verification development for the overlapping-segment audio transcription
pipeline (`terminal_app/audio.py`, classes `RecordingSegment` and
`OverlapAudioManager`).

The embedding models the manager's observable state: the list of active
recording segments, the pending handoff priority queue (whose shutdown
sentinel carries priority key infinity, modelled as `⊤ : WithTop ℕ`),
the accumulated result entries, the persisted transcript file, and the
set of artifact files existing on storage.  Two ghost logs instrument
the model: `attempted` records every artifact path on which a
transcription attempt was made (a call to `_transcribe_single`), and
`unlinkLog` records every successful file deletion.  Timestamps and
file paths are modelled as naturals; audio sample data is irrelevant to
every claim and is abstracted to lists of integers.
-/

/-- One recording segment thread (`RecordingSegment`): its spawn identity,
its capture-start timestamp (`_started_at`) and its artifact file
(`file_path`, `none` until the capture finished with at least one block). -/
structure Seg where
  sid : ℕ
  startedAt : ℕ
  filePath : Option ℕ
deriving DecidableEq

/-- An element of the handoff queue `_pending_queue`: either a real item
`(start_ts, path)` or the shutdown sentinel `(float('inf'), None)`. -/
inductive HandoffItem where
  | real (ts : ℕ) (path : ℕ)
  | sentinel
deriving DecidableEq

/-- Priority key of a queue element: the capture-start timestamp for a real
item, `float('inf')` (modelled `⊤`) for the sentinel. -/
def HandoffItem.key : HandoffItem → WithTop ℕ
  | .real ts _ => (ts : WithTop ℕ)
  | .sentinel => ⊤

/-- The artifact path carried by a queue element, if any. -/
def HandoffItem.path : HandoffItem → Option ℕ
  | .real _ p => some p
  | .sentinel => none

/-- Outcome of one call to `self.llm.transcribe`: a returned text, a
`GroqRateLimitError`, or a generic exception. -/
inductive TOutcome where
  | ok (text : String)
  | rateLimited
  | err
deriving DecidableEq

/-- `True` exactly for the two exception outcomes. -/
def TOutcome.isFailure : TOutcome → Bool
  | .ok _ => false
  | .rateLimited => true
  | .err => true

/-- The retry loop of `OverlapAudioManager._transcribe_single` on attempt
number `attempt` with `remaining` retries left in the budget (the loop
`for attempt in range(max_retries + 1)` has `remaining = max_retries -
attempt`, so `attempt == max_retries` is exactly `remaining == 0`): return
the client's text on success; on `GroqRateLimitError` or a generic
exception return `""` when no retry remains, otherwise sleep and retry.
`client n` is the outcome of attempt number `n` for this artifact. -/
def transcribeLoop (client : ℕ → TOutcome) (attempt : ℕ) : ℕ → String
  | 0 =>
      match client attempt with
      | .ok t => t
      | .rateLimited => ""
      | .err => ""
  | remaining + 1 =>
      match client attempt with
      | .ok t => t
      | .rateLimited => transcribeLoop client (attempt + 1) remaining
      | .err => transcribeLoop client (attempt + 1) remaining

/-- `_transcribe_single`: the retry loop started at attempt 0 with the full
budget of `max_retries` retries. -/
def transcribeSingle (maxRetries : ℕ) (client : ℕ → TOutcome) : String :=
  transcribeLoop client 0 maxRetries

/-- Number of `self.llm.transcribe` calls the retry loop makes from attempt
number `attempt` with `remaining` retries left. -/
def attemptsLoop (client : ℕ → TOutcome) (attempt : ℕ) : ℕ → ℕ
  | 0 => 1
  | remaining + 1 =>
      match client attempt with
      | .ok _ => 1
      | .rateLimited => 1 + attemptsLoop client (attempt + 1) remaining
      | .err => 1 + attemptsLoop client (attempt + 1) remaining

/-- Total number of transcription attempts `_transcribe_single` makes. -/
def attemptsUsed (maxRetries : ℕ) (client : ℕ → TOutcome) : ℕ :=
  attemptsLoop client 0 maxRetries

/-- Comparison used by `sorted(self._results, key=lambda x: x[0])`:
order result entries by their capture-start timestamp. -/
def keyLE (a b : ℕ × String) : Prop := a.1 ≤ b.1

instance : DecidableRel keyLE := fun a b => Nat.decLe a.1 b.1

instance : IsTotal (ℕ × String) keyLE := ⟨fun a b => Nat.le_total a.1 b.1⟩

instance : IsTrans (ℕ × String) keyLE := ⟨fun _ _ _ => Nat.le_trans⟩

/-- The stable sort by start timestamp performed in `_write_transcript`. -/
def sortResults (l : List (ℕ × String)) : List (ℕ × String) :=
  List.insertionSort keyLE l

/-- `" ".join(texts)` over the sorted result texts. -/
def transcriptText (results : List (ℕ × String)) : String :=
  String.intercalate " " ((sortResults results).map Prod.snd)

/-- The full observable state of an `OverlapAudioManager` plus the ghost
logs `attempted` and `unlinkLog`.  `running` is `self.running` (scheduler
alive), `workerAlive` is the liveness of `_transcriber_thread`,
`transcriptFile` is the content of the transcript file (`none` when the
file does not exist), and `storage` is the set of segment artifact files
currently existing on disk. -/
structure Mgr where
  running : Bool
  paused : Bool
  workerAlive : Bool
  active : List Seg
  pending : List HandoffItem
  results : List (ℕ × String)
  transcriptFile : Option String
  storage : Finset ℕ
  attempted : List ℕ
  unlinkLog : List ℕ
deriving DecidableEq

/-- `read_transcript`: the transcript file's text, `""` when it does not
exist. -/
def readTranscript (s : Mgr) : String :=
  match s.transcriptFile with
  | none => ""
  | some t => t

/-- `_write_transcript`: sort all results by start time; if the text list is
nonempty, overwrite the transcript file with the space-joined texts
(otherwise perform no write at all). -/
def writeTranscript (s : Mgr) : Mgr :=
  let texts := (sortResults s.results).map Prod.snd
  if texts.isEmpty then s
  else { s with transcriptFile := some (String.intercalate " " texts) }

/-- `path.unlink(missing_ok=True)`: remove the file when it exists (and
record the deletion in the ghost log); otherwise do nothing. -/
def unlink (p : ℕ) (s : Mgr) : Mgr :=
  if p ∈ s.storage then
    { s with storage := s.storage.erase p, unlinkLog := s.unlinkLog ++ [p] }
  else s

/-- Unlink each path of a list in order. -/
def unlinkAll (ps : List ℕ) (s : Mgr) : Mgr :=
  ps.foldl (fun st p => unlink p st) s

/-- `PriorityQueue.get`: extract an element of minimal priority key from the
queue (the first such element, deterministically), together with the
remaining queue; `none` when the queue is empty. -/
def extractMin : List HandoffItem → Option (HandoffItem × List HandoffItem)
  | [] => none
  | x :: xs =>
      match extractMin xs with
      | none => some (x, xs)
      | some (m, rest) =>
          if x.key ≤ m.key then some (x, xs) else some (m, x :: rest)

/-- The body of `_transcriber_loop` for a real dequeued item
`(start_ts, path)`: run the retry loop; when the text is non-empty, append
`(start_ts, text.strip())` to the results and rewrite the transcript; in
every case delete the artifact and record the attempt.  `client p n` is the
outcome of attempt `n` on artifact `p`. -/
def processReal (maxRetries : ℕ) (client : ℕ → ℕ → TOutcome) (ts p : ℕ) (s : Mgr) : Mgr :=
  let text := transcribeSingle maxRetries (client p)
  let s1 :=
    if text = "" then s
    else writeTranscript { s with results := s.results ++ [(ts, text.trim)] }
  let s2 := unlink p s1
  { s2 with attempted := s2.attempted ++ [p] }

/-- One iteration of `_transcriber_loop`: poll the queue; on `queue.Empty`
loop again (no state change); on the sentinel exit the worker thread; on a
real item transcribe it. -/
def workerStep1 (maxRetries : ℕ) (client : ℕ → ℕ → TOutcome) (s : Mgr) : Mgr :=
  match extractMin s.pending with
  | none => s
  | some (.sentinel, rest) => { s with pending := rest, workerAlive := false }
  | some (.real ts p, rest) => processReal maxRetries client ts p { s with pending := rest }

/-- The transcriber loop run to completion with explicit fuel: dequeue and
process items until the sentinel is dequeued (worker exits) or the queue is
empty or the fuel runs out. -/
def workerDrain (maxRetries : ℕ) (client : ℕ → ℕ → TOutcome) : ℕ → Mgr → Mgr
  | 0, s => s
  | fuel + 1, s =>
      match extractMin s.pending with
      | none => s
      | some (.sentinel, rest) => { s with pending := rest, workerAlive := false }
      | some (.real ts p, rest) =>
          workerDrain maxRetries client fuel (processReal maxRetries client ts p { s with pending := rest })

/-- `_watch_segment`: once the segment's thread has finished, remove it from
the active set and, when it produced an artifact that exists on storage,
file a handoff item keyed by its capture-start timestamp. -/
def watchSegment (seg : Seg) (s : Mgr) : Mgr :=
  if seg ∈ s.active then
    let s1 := { s with active := s.active.erase seg }
    match seg.filePath with
    | some p =>
        if p ∈ s1.storage then
          { s1 with pending := s1.pending ++ [HandoffItem.real seg.startedAt p] }
        else s1
    | none => s1
  else s

/-- End of `RecordingSegment.run` for a segment that captured at least one
block and was not aborted: a fresh artifact file `p` is written to storage
and recorded as the segment's `file_path`. -/
def segFinish (seg : Seg) (p : ℕ) (s : Mgr) : Mgr :=
  { s with
    active := s.active.map (fun t => if t = seg then { t with filePath := some p } else t),
    storage := insert p s.storage }

/-- `RecordingSegment.run` abstracted over its inputs: `errored` is true
when the input stream raised, `frames` are the audio blocks read, `fresh`
is the `mkstemp` path.  Returns the segment's final `file_path`: `none`
when the capture errored or read zero blocks, otherwise the artifact path. -/
def segmentRun (errored : Bool) (frames : List (List ℤ)) (fresh : ℕ) : Option ℕ :=
  if errored then none
  else if frames.isEmpty then none
  else some fresh

/-- `_stop_active_segments`: pop the whole active set; for each segment stop
and join it, and file its artifact for transcription when the artifact
exists on storage. -/
def stopActiveSegments (s : Mgr) : Mgr :=
  { s with
    active := [],
    pending := s.pending ++
      s.active.filterMap (fun seg =>
        match seg.filePath with
        | some p =>
            if p ∈ s.storage then some (HandoffItem.real seg.startedAt p) else none
        | none => none) }

/-- `_shutdown`: record the pause flag, stop the scheduler, flush the active
segments into the handoff queue, file the infinity-keyed sentinel, and (when
the transcriber thread is alive) join it — which drains the queue. -/
def shutdown (maxRetries : ℕ) (client : ℕ → ℕ → TOutcome) (paused : Bool) (s : Mgr) : Mgr :=
  let s1 := stopActiveSegments { s with paused := paused, running := false }
  let s2 := { s1 with pending := s1.pending ++ [HandoffItem.sentinel] }
  if s2.workerAlive then
    let s3 := workerDrain maxRetries client s2.pending.length s2
    { s3 with workerAlive := false }
  else s2

/-- `stop`: shut down without the paused flag. -/
def stop (maxRetries : ℕ) (client : ℕ → ℕ → TOutcome) (s : Mgr) : Mgr :=
  shutdown maxRetries client false s

/-- `pause`: shut down with the paused flag, only when currently running. -/
def pause (maxRetries : ℕ) (client : ℕ → ℕ → TOutcome) (s : Mgr) : Mgr :=
  if s.running then shutdown maxRetries client true s else s

/-- `start`: a no-op while the scheduler is running; otherwise clear the
transcript file, the result list and the pending queue (files are not
deleted here), then start the transcriber thread and the scheduler. -/
def start (s : Mgr) : Mgr :=
  if s.running then s
  else
    { s with
      paused := false,
      transcriptFile := none,
      results := [],
      pending := [],
      workerAlive := true,
      running := true }

/-- `resume`: a no-op while running or while not paused; otherwise restart
the transcriber thread and the scheduler without clearing anything. -/
def resume (s : Mgr) : Mgr :=
  if s.running then s
  else if !s.paused then s
  else { s with paused := false, workerAlive := true, running := true }

/-- `cancel`: stop the scheduler, pop the active set and delete each active
segment's existing artifact, drain the pending queue deleting every queued
artifact, file the sentinel (consumed immediately when the transcriber is
alive), clear the results and the transcript file. -/
def cancel (s : Mgr) : Mgr :=
  let s1 := { s with running := false, active := [] }
  let s2 := unlinkAll (s.active.filterMap Seg.filePath) s1
  let s3 := unlinkAll (s.pending.filterMap HandoffItem.path) { s2 with pending := [] }
  { s3 with
    pending := if s.workerAlive then ([] : List HandoffItem) else [HandoffItem.sentinel],
    workerAlive := false,
    results := [],
    transcriptFile := none,
    paused := false }

/-- The artifact paths referenced by the active segment set. -/
def activePaths (s : Mgr) : List ℕ :=
  s.active.filterMap Seg.filePath

/-- The artifact paths referenced by the pending handoff queue. -/
def pendingPaths (s : Mgr) : List ℕ :=
  s.pending.filterMap HandoffItem.path

/-- Number of live references to artifact `p` (active segments plus queued
handoff items). -/
def locCount (p : ℕ) (s : Mgr) : ℕ :=
  (activePaths s).count p + (pendingPaths s).count p

/-- Ownership invariant for one artifact `p`: it is referenced by exactly
one live location or already deleted (never both, never twice), and it
exists on storage exactly while a live reference holds it. -/
def ArtifactInv (p : ℕ) (s : Mgr) : Prop :=
  locCount p s + s.unlinkLog.count p = 1 ∧ (p ∈ s.storage ↔ locCount p s = 1)

instance (p : ℕ) (s : Mgr) : Decidable (ArtifactInv p s) := by
  unfold ArtifactInv
  infer_instance

/-- Atomic steps of a session once an artifact exists: a transcriber-loop
iteration, a watcher filing a finished segment, a segment finishing its
capture with a fresh artifact, the stop-path flush, or `cancel`. -/
inductive Step (maxRetries : ℕ) (client : ℕ → ℕ → TOutcome) : Mgr → Mgr → Prop
  | worker (s : Mgr) : Step maxRetries client s (workerStep1 maxRetries client s)
  | watch (seg : Seg) (s : Mgr) : Step maxRetries client s (watchSegment seg s)
  | finish (seg : Seg) (p : ℕ) (s : Mgr) (hmem : seg ∈ s.active)
      (hnone : seg.filePath = none) (hstore : p ∉ s.storage)
      (hloc : locCount p s = 0) (hlog : p ∉ s.unlinkLog) :
      Step maxRetries client s (segFinish seg p s)
  | stopSegs (s : Mgr) : Step maxRetries client s (stopActiveSegments s)
  | cancelStep (s : Mgr) : Step maxRetries client s (cancel s)

/-- Reflexive-transitive closure of `Step`: any interleaving of session
steps. -/
def StepStar (maxRetries : ℕ) (client : ℕ → ℕ → TOutcome) : Mgr → Mgr → Prop :=
  Relation.ReflTransGen (Step maxRetries client)

/-- Timing model of `_schedule`: the scheduler spawns segment number `k` at
time `k * gap` (one spawn per tick, ticks `gap` apart). -/
def spawnTime (gap k : ℕ) : ℕ := k * gap

/-- Timing model of the active set: segment `k` is active from its spawn
until its capture ends `dur` later (`_watch_segment` then removes it). -/
def activeAt (gap dur t : ℕ) : Finset ℕ :=
  (Finset.range (t + 1)).filter (fun k => spawnTime gap k ≤ t ∧ t < spawnTime gap k + dur)

/-- `ceil(dur / gap)` over the naturals. -/
def ceilDivNat (dur gap : ℕ) : ℕ := (dur + gap - 1) / gap

/-! ### Lemmas about the retry loop -/

theorem attemptsLoop_le (client : ℕ → TOutcome) :
    ∀ remaining attempt, attemptsLoop client attempt remaining ≤ remaining + 1 := by
  intro remaining
  induction remaining with
  | zero => intro attempt; exact le_refl 1
  | succ remaining ih =>
      intro attempt
      rw [attemptsLoop]
      split
      · omega
      · have := ih (attempt + 1)
        omega
      · have := ih (attempt + 1)
        omega

theorem transcribeLoop_all_fail (client : ℕ → TOutcome) :
    ∀ remaining attempt,
      (∀ i, attempt ≤ i → i ≤ attempt + remaining → (client i).isFailure = true) →
      transcribeLoop client attempt remaining = "" := by
  intro remaining
  induction remaining with
  | zero =>
      intro attempt hfail
      have h := hfail attempt (le_refl _) (by omega)
      rw [transcribeLoop]
      split <;> rename_i heq
      · rw [heq] at h
        simp [TOutcome.isFailure] at h
      · rfl
      · rfl
  | succ remaining ih =>
      intro attempt hfail
      have h := hfail attempt (le_refl _) (by omega)
      rw [transcribeLoop]
      split <;> rename_i heq
      · rw [heq] at h
        simp [TOutcome.isFailure] at h
      · exact ih (attempt + 1) (fun i h1 h2 => hfail i (by omega) (by omega))
      · exact ih (attempt + 1) (fun i h1 h2 => hfail i (by omega) (by omega))

theorem transcribeLoop_fail_then_ok (client : ℕ → TOutcome) (t : String) :
    ∀ remaining attempt,
      (∀ i, attempt ≤ i → i < attempt + remaining → (client i).isFailure = true) →
      client (attempt + remaining) = .ok t →
      transcribeLoop client attempt remaining = t := by
  intro remaining
  induction remaining with
  | zero =>
      intro attempt _ hok
      rw [transcribeLoop]
      rw [Nat.add_zero] at hok
      rw [hok]
  | succ remaining ih =>
      intro attempt hfail hok
      have h := hfail attempt (le_refl _) (by omega)
      rw [transcribeLoop]
      split <;> rename_i heq
      · rw [heq] at h
        simp [TOutcome.isFailure] at h
      · exact ih (attempt + 1) (fun i h1 h2 => hfail i (by omega) (by omega))
          (by rw [show attempt + 1 + remaining = attempt + (remaining + 1) by omega]; exact hok)
      · exact ih (attempt + 1) (fun i h1 h2 => hfail i (by omega) (by omega))
          (by rw [show attempt + 1 + remaining = attempt + (remaining + 1) by omega]; exact hok)

/-! ### Field-preservation lemmas -/

theorem writeTranscript_results (s : Mgr) : (writeTranscript s).results = s.results := by
  simp only [writeTranscript]
  split <;> rfl

theorem writeTranscript_active (s : Mgr) : (writeTranscript s).active = s.active := by
  simp only [writeTranscript]
  split <;> rfl

theorem writeTranscript_pending (s : Mgr) : (writeTranscript s).pending = s.pending := by
  simp only [writeTranscript]
  split <;> rfl

theorem writeTranscript_storage (s : Mgr) : (writeTranscript s).storage = s.storage := by
  simp only [writeTranscript]
  split <;> rfl

theorem writeTranscript_attempted (s : Mgr) : (writeTranscript s).attempted = s.attempted := by
  simp only [writeTranscript]
  split <;> rfl

theorem writeTranscript_unlinkLog (s : Mgr) : (writeTranscript s).unlinkLog = s.unlinkLog := by
  simp only [writeTranscript]
  split <;> rfl

theorem writeTranscript_workerAlive (s : Mgr) : (writeTranscript s).workerAlive = s.workerAlive := by
  simp only [writeTranscript]
  split <;> rfl

theorem unlink_results (p : ℕ) (s : Mgr) : (unlink p s).results = s.results := by
  unfold unlink
  split <;> rfl

theorem unlink_active (p : ℕ) (s : Mgr) : (unlink p s).active = s.active := by
  unfold unlink
  split <;> rfl

theorem unlink_pending (p : ℕ) (s : Mgr) : (unlink p s).pending = s.pending := by
  unfold unlink
  split <;> rfl

theorem unlink_attempted (p : ℕ) (s : Mgr) : (unlink p s).attempted = s.attempted := by
  unfold unlink
  split <;> rfl

theorem unlink_transcriptFile (p : ℕ) (s : Mgr) :
    (unlink p s).transcriptFile = s.transcriptFile := by
  unfold unlink
  split <;> rfl

theorem unlink_workerAlive (p : ℕ) (s : Mgr) : (unlink p s).workerAlive = s.workerAlive := by
  unfold unlink
  split <;> rfl

theorem unlink_storage (p : ℕ) (s : Mgr) : (unlink p s).storage = s.storage.erase p := by
  unfold unlink
  split
  · rfl
  · rename_i h
    exact (Finset.erase_eq_of_not_mem h).symm

theorem unlinkAll_cons (q : ℕ) (qs : List ℕ) (s : Mgr) :
    unlinkAll (q :: qs) s = unlinkAll qs (unlink q s) := rfl

theorem unlinkAll_results (ps : List ℕ) : ∀ s : Mgr, (unlinkAll ps s).results = s.results := by
  induction ps with
  | nil => intro s; rfl
  | cons q qs ih =>
      intro s
      show (unlinkAll qs (unlink q s)).results = s.results
      rw [ih, unlink_results]

theorem unlinkAll_active (ps : List ℕ) : ∀ s : Mgr, (unlinkAll ps s).active = s.active := by
  induction ps with
  | nil => intro s; rfl
  | cons q qs ih =>
      intro s
      show (unlinkAll qs (unlink q s)).active = s.active
      rw [ih, unlink_active]

theorem unlinkAll_pending (ps : List ℕ) : ∀ s : Mgr, (unlinkAll ps s).pending = s.pending := by
  induction ps with
  | nil => intro s; rfl
  | cons q qs ih =>
      intro s
      show (unlinkAll qs (unlink q s)).pending = s.pending
      rw [ih, unlink_pending]

theorem unlinkAll_attempted (ps : List ℕ) :
    ∀ s : Mgr, (unlinkAll ps s).attempted = s.attempted := by
  induction ps with
  | nil => intro s; rfl
  | cons q qs ih =>
      intro s
      show (unlinkAll qs (unlink q s)).attempted = s.attempted
      rw [ih, unlink_attempted]

theorem unlinkAll_transcriptFile (ps : List ℕ) :
    ∀ s : Mgr, (unlinkAll ps s).transcriptFile = s.transcriptFile := by
  induction ps with
  | nil => intro s; rfl
  | cons q qs ih =>
      intro s
      show (unlinkAll qs (unlink q s)).transcriptFile = s.transcriptFile
      rw [ih, unlink_transcriptFile]

theorem unlinkAll_storage_not_mem (ps : List ℕ) :
    ∀ s : Mgr, ∀ p : ℕ, p ∉ s.storage → p ∉ (unlinkAll ps s).storage := by
  induction ps with
  | nil => intro s p h; exact h
  | cons q qs ih =>
      intro s p h
      apply ih
      rw [unlink_storage]
      intro hmem
      exact h (Finset.mem_of_mem_erase hmem)

theorem unlinkAll_log_not_mem (ps : List ℕ) :
    ∀ s : Mgr, ∀ p : ℕ, p ∉ s.storage →
      (unlinkAll ps s).unlinkLog.count p = s.unlinkLog.count p := by
  induction ps with
  | nil => intro s p _; rfl
  | cons q qs ih =>
      intro s p h
      show (unlinkAll qs (unlink q s)).unlinkLog.count p = _
      rw [ih (unlink q s) p (by
        rw [unlink_storage]
        intro hmem
        exact h (Finset.mem_of_mem_erase hmem))]
      unfold unlink
      split
      · rename_i hq
        simp only [List.count_append]
        have hpq : p ≠ q := fun he => h (he ▸ hq)
        simp [List.count_singleton, hpq]
      · rfl

theorem unlinkAll_hit (ps : List ℕ) :
    ∀ s : Mgr, ∀ p : ℕ, p ∈ s.storage → p ∈ ps →
      p ∉ (unlinkAll ps s).storage ∧
        (unlinkAll ps s).unlinkLog.count p = s.unlinkLog.count p + 1 := by
  induction ps with
  | nil => intro s p _ h; cases h
  | cons q qs ih =>
      intro s p hst hmem
      by_cases hpq : p = q
      · subst hpq
        have hu : unlink p s =
            { s with storage := s.storage.erase p, unlinkLog := s.unlinkLog ++ [p] } := by
          unfold unlink
          rw [if_pos hst]
        show p ∉ (unlinkAll qs (unlink p s)).storage ∧
          (unlinkAll qs (unlink p s)).unlinkLog.count p = s.unlinkLog.count p + 1
        constructor
        · apply unlinkAll_storage_not_mem
          rw [unlink_storage]
          exact Finset.not_mem_erase p s.storage
        · rw [unlinkAll_log_not_mem qs (unlink p s) p (by
            rw [unlink_storage]
            exact Finset.not_mem_erase p s.storage)]
          rw [hu]
          simp [List.count_append]
      · have hmem' : p ∈ qs := by
          cases hmem with
          | head => exact absurd rfl hpq
          | tail _ h => exact h
        have hst' : p ∈ (unlink q s).storage := by
          rw [unlink_storage]
          exact Finset.mem_erase_of_ne_of_mem hpq hst
        have := ih (unlink q s) p hst' hmem'
        rw [unlinkAll_cons]
        refine ⟨this.1, ?_⟩
        rw [this.2]
        unfold unlink
        split
        · simp only [List.count_append]
          simp [List.count_singleton, hpq]
        · rfl

theorem unlinkAll_miss (ps : List ℕ) :
    ∀ s : Mgr, ∀ p : ℕ, p ∉ ps →
      (p ∈ (unlinkAll ps s).storage ↔ p ∈ s.storage) ∧
        (unlinkAll ps s).unlinkLog.count p = s.unlinkLog.count p := by
  induction ps with
  | nil => intro s p _; exact ⟨Iff.rfl, rfl⟩
  | cons q qs ih =>
      intro s p hmem
      have hpq : p ≠ q := fun he => hmem (he ▸ List.mem_cons_self q qs)
      have hmem' : p ∉ qs := fun h => hmem (List.mem_cons_of_mem q h)
      have := ih (unlink q s) p hmem'
      rw [unlinkAll_cons]
      refine ⟨?_, ?_⟩
      · rw [this.1, unlink_storage, Finset.mem_erase]
        exact ⟨fun h => h.2, fun h => ⟨hpq, h⟩⟩
      · rw [this.2]
        unfold unlink
        split
        · simp [List.count_append, List.count_singleton, hpq]
        · rfl

theorem sortResults_perm (l : List (ℕ × String)) : List.Perm (sortResults l) l :=
  List.perm_insertionSort keyLE l

theorem sortResults_sorted (l : List (ℕ × String)) : List.Sorted keyLE (sortResults l) :=
  List.sorted_insertionSort keyLE l

theorem sortResults_ne_nil (l : List (ℕ × String)) (h : l ≠ []) : sortResults l ≠ [] := by
  intro hnil
  have hp := sortResults_perm l
  rw [hnil] at hp
  exact h hp.nil_eq.symm

theorem writeTranscript_file_of_ne (s : Mgr) (h : s.results ≠ []) :
    (writeTranscript s).transcriptFile = some (transcriptText s.results) := by
  simp only [writeTranscript]
  split
  · rename_i hemp
    rw [List.isEmpty_iff, List.map_eq_nil_iff] at hemp
    exact absurd hemp (sortResults_ne_nil s.results h)
  · rfl

theorem processReal_results (maxRetries : ℕ) (client : ℕ → ℕ → TOutcome) (ts p : ℕ) (s : Mgr) :
    (processReal maxRetries client ts p s).results =
      if transcribeSingle maxRetries (client p) = "" then s.results
      else s.results ++ [(ts, (transcribeSingle maxRetries (client p)).trim)] := by
  simp only [processReal]
  split
  · rw [unlink_results]
  · rw [unlink_results, writeTranscript_results]

theorem processReal_pending (maxRetries : ℕ) (client : ℕ → ℕ → TOutcome) (ts p : ℕ) (s : Mgr) :
    (processReal maxRetries client ts p s).pending = s.pending := by
  simp only [processReal]
  split
  · rw [unlink_pending]
  · rw [unlink_pending, writeTranscript_pending]

theorem processReal_active (maxRetries : ℕ) (client : ℕ → ℕ → TOutcome) (ts p : ℕ) (s : Mgr) :
    (processReal maxRetries client ts p s).active = s.active := by
  simp only [processReal]
  split
  · rw [unlink_active]
  · rw [unlink_active, writeTranscript_active]

theorem processReal_attempted (maxRetries : ℕ) (client : ℕ → ℕ → TOutcome) (ts p : ℕ) (s : Mgr) :
    (processReal maxRetries client ts p s).attempted = s.attempted ++ [p] := by
  simp only [processReal]
  split
  · rw [unlink_attempted]
  · rw [unlink_attempted, writeTranscript_attempted]

theorem processReal_storage (maxRetries : ℕ) (client : ℕ → ℕ → TOutcome) (ts p : ℕ) (s : Mgr) :
    (processReal maxRetries client ts p s).storage = s.storage.erase p := by
  simp only [processReal]
  split
  · rw [unlink_storage]
  · rw [unlink_storage, writeTranscript_storage]

theorem processReal_workerAlive (maxRetries : ℕ) (client : ℕ → ℕ → TOutcome) (ts p : ℕ) (s : Mgr) :
    (processReal maxRetries client ts p s).workerAlive = s.workerAlive := by
  simp only [processReal]
  split
  · rw [unlink_workerAlive]
  · rw [unlink_workerAlive, writeTranscript_workerAlive]

theorem unlink_unlinkLog (p : ℕ) (s : Mgr) :
    (unlink p s).unlinkLog = if p ∈ s.storage then s.unlinkLog ++ [p] else s.unlinkLog := by
  unfold unlink
  split <;> rfl

theorem processReal_unlinkLog (maxRetries : ℕ) (client : ℕ → ℕ → TOutcome) (ts p : ℕ) (s : Mgr) :
    (processReal maxRetries client ts p s).unlinkLog =
      if p ∈ s.storage then s.unlinkLog ++ [p] else s.unlinkLog := by
  simp only [processReal]
  split
  · rw [unlink_unlinkLog]
  · rw [unlink_unlinkLog, writeTranscript_storage, writeTranscript_unlinkLog]

theorem processReal_transcriptFile (maxRetries : ℕ) (client : ℕ → ℕ → TOutcome)
    (ts p : ℕ) (s : Mgr) :
    (processReal maxRetries client ts p s).transcriptFile =
      if transcribeSingle maxRetries (client p) = "" then s.transcriptFile
      else some (transcriptText
        (s.results ++ [(ts, (transcribeSingle maxRetries (client p)).trim)])) := by
  simp only [processReal]
  split
  · rw [unlink_transcriptFile]
  · rw [unlink_transcriptFile]
    exact writeTranscript_file_of_ne _ (by simp)

/-! ### Lemmas about `extractMin` -/

theorem extractMin_eq_none (l : List HandoffItem) : extractMin l = none ↔ l = [] := by
  cases l with
  | nil => simp [extractMin]
  | cons x xs =>
      simp only [extractMin]
      constructor
      · intro h
        cases hxs : extractMin xs with
        | none => rw [hxs] at h; cases h
        | some v =>
            rw [hxs] at h
            obtain ⟨m, rest⟩ := v
            dsimp at h
            split at h <;> cases h
      · intro h
        cases h

theorem extractMin_perm (l : List HandoffItem) :
    ∀ x rest, extractMin l = some (x, rest) → List.Perm l (x :: rest) := by
  induction l with
  | nil => intro x rest h; cases h
  | cons a as ih =>
      intro x rest h
      simp only [extractMin] at h
      cases has : extractMin as with
      | none =>
          rw [has] at h
          rw [(extractMin_eq_none as).mp has] at h ⊢
          cases h
          exact List.Perm.refl _
      | some v =>
          obtain ⟨m, r⟩ := v
          rw [has] at h
          dsimp at h
          split at h
          · cases h
            exact List.Perm.refl _
          · cases h
            exact ((ih _ _ has).cons a).trans (List.Perm.swap _ a _)

theorem extractMin_min (l : List HandoffItem) :
    ∀ x rest, extractMin l = some (x, rest) → ∀ y ∈ l, x.key ≤ y.key := by
  induction l with
  | nil => intro x rest h; cases h
  | cons a as ih =>
      intro x rest h y hy
      simp only [extractMin] at h
      cases has : extractMin as with
      | none =>
          rw [has] at h
          cases h
          rw [(extractMin_eq_none as).mp has] at hy
          rcases List.mem_singleton.mp hy with rfl
          exact le_refl _
      | some v =>
          obtain ⟨m, r⟩ := v
          rw [has] at h
          dsimp at h
          split at h <;> rename_i hle
          · cases h
            rcases List.mem_cons.mp hy with rfl | hy'
            · exact le_refl _
            · exact le_trans hle (ih _ _ has y hy')
          · cases h
            rcases List.mem_cons.mp hy with rfl | hy'
            · exact le_of_not_le hle
            · exact ih _ _ has y hy'

/-! ### Lemmas about the transcriber loop run to completion -/

theorem workerDrain_attempted_append (maxRetries : ℕ) (client : ℕ → ℕ → TOutcome) :
    ∀ fuel s, ∃ t, (workerDrain maxRetries client fuel s).attempted = s.attempted ++ t := by
  intro fuel
  induction fuel with
  | zero => intro s; exact ⟨[], by simp [workerDrain]⟩
  | succ fuel ih =>
      intro s
      rw [workerDrain]
      cases hx : extractMin s.pending with
      | none => exact ⟨[], by simp⟩
      | some v =>
          obtain ⟨x, rest⟩ := v
          cases x with
          | sentinel => exact ⟨[], by simp⟩
          | real ts p =>
              obtain ⟨t, ht⟩ := ih (processReal maxRetries client ts p { s with pending := rest })
              refine ⟨p :: t, ?_⟩
              rw [ht, processReal_attempted]
              simp

theorem workerDrain_results_append (maxRetries : ℕ) (client : ℕ → ℕ → TOutcome) :
    ∀ fuel s, ∃ t, (workerDrain maxRetries client fuel s).results = s.results ++ t := by
  intro fuel
  induction fuel with
  | zero => intro s; exact ⟨[], by simp [workerDrain]⟩
  | succ fuel ih =>
      intro s
      rw [workerDrain]
      cases hx : extractMin s.pending with
      | none => exact ⟨[], by simp⟩
      | some v =>
          obtain ⟨x, rest⟩ := v
          cases x with
          | sentinel => exact ⟨[], by simp⟩
          | real ts p =>
              obtain ⟨t, ht⟩ := ih (processReal maxRetries client ts p { s with pending := rest })
              rw [ht, processReal_results]
              split
              · exact ⟨t, rfl⟩
              · exact ⟨(ts, (transcribeSingle maxRetries (client p)).trim) :: t, by simp⟩

theorem workerDrain_attempts_all (maxRetries : ℕ) (client : ℕ → ℕ → TOutcome) :
    ∀ fuel s ts p, s.pending.length ≤ fuel →
      HandoffItem.real ts p ∈ s.pending →
      p ∈ (workerDrain maxRetries client fuel s).attempted := by
  intro fuel
  induction fuel with
  | zero =>
      intro s ts p hlen hmem
      have := List.length_pos.mpr (List.ne_nil_of_mem hmem)
      omega
  | succ fuel ih =>
      intro s ts p hlen hmem
      cases hx : extractMin s.pending with
      | none =>
          rw [extractMin_eq_none] at hx
          rw [hx] at hmem
          cases hmem
      | some v =>
          obtain ⟨x, rest⟩ := v
          have hperm := extractMin_perm s.pending x rest hx
          have hmin := extractMin_min s.pending x rest hx (HandoffItem.real ts p) hmem
          cases x with
          | sentinel =>
              exfalso
              simp only [HandoffItem.key] at hmin
              have : (ts : WithTop ℕ) = ⊤ := le_antisymm le_top hmin
              exact WithTop.coe_ne_top this
          | real ts' p' =>
              rw [workerDrain, hx]
              have hmem' : HandoffItem.real ts p ∈ HandoffItem.real ts' p' :: rest :=
                hperm.mem_iff.mp hmem
              have hlen' : rest.length ≤ fuel := by
                have := hperm.length_eq
                simp at this
                omega
              rcases List.mem_cons.mp hmem' with heq | htail
              · injection heq with h1 h2
                subst h1
                subst h2
                obtain ⟨t, ht⟩ := workerDrain_attempted_append maxRetries client fuel
                  (processReal maxRetries client ts p { s with pending := rest })
                rw [ht, processReal_attempted]
                simp
              · apply ih
                · rw [processReal_pending]
                  exact hlen'
                · rw [processReal_pending]
                  exact htail

theorem stopActiveSegments_results (s : Mgr) :
    (stopActiveSegments s).results = s.results := rfl

theorem stopActiveSegments_transcriptFile (s : Mgr) :
    (stopActiveSegments s).transcriptFile = s.transcriptFile := rfl

theorem stopActiveSegments_workerAlive (s : Mgr) :
    (stopActiveSegments s).workerAlive = s.workerAlive := rfl

theorem stopActiveSegments_attempted (s : Mgr) :
    (stopActiveSegments s).attempted = s.attempted := rfl

/-- C4: `stop()` does not return before every segment whose artifact was in
the handoff queue at call time has had a transcription attempt: the shutdown
sentinel carries priority key infinity (`⊤`), every real item's key is below
it, so the worker dequeues and attempts every real item filed before it
exits.  (The model runs the worker join to completion, i.e. within the 30s
timeout.) -/
theorem stop_attempts_all_queued (maxRetries : ℕ) (client : ℕ → ℕ → TOutcome)
    (s : Mgr) (ts p : ℕ)
    (hmem : HandoffItem.real ts p ∈ s.pending) (halive : s.workerAlive = true) :
    p ∈ (stop maxRetries client s).attempted ∧
      HandoffItem.key HandoffItem.sentinel = ⊤ ∧
      HandoffItem.key (HandoffItem.real ts p) < ⊤ := by
  refine ⟨?_, rfl, WithTop.coe_lt_top ts⟩
  simp only [stop, shutdown]
  rw [stopActiveSegments_workerAlive] at *
  simp only [halive, if_true]
  show p ∈ (workerDrain maxRetries client _ _).attempted
  apply workerDrain_attempts_all
  · exact le_refl _
  · show HandoffItem.real ts p ∈
      (stopActiveSegments { s with paused := false, running := false }).pending ++
        [HandoffItem.sentinel]
    apply List.mem_append_left
    show HandoffItem.real ts p ∈ s.pending ++ _
    exact List.mem_append_left _ hmem

/-- Witness for C4 at a concrete state: one real item queued, worker alive. -/
theorem stop_attempts_all_queued_witness :
    7 ∈ (stop 1 (fun _ _ => TOutcome.ok "x")
      { running := true, paused := false, workerAlive := true, active := [],
        pending := [HandoffItem.real 5 7], results := [], transcriptFile := none,
        storage := {7}, attempted := [], unlinkLog := [] }).attempted ∧
      HandoffItem.key HandoffItem.sentinel = ⊤ ∧
      HandoffItem.key (HandoffItem.real 5 7) < ⊤ :=
  stop_attempts_all_queued 1 (fun _ _ => TOutcome.ok "x") _ 5 7 (List.mem_singleton.mpr rfl) rfl

/-- C6: `start()` while the scheduler is already running returns immediately
and changes nothing: transcript, result set, pending queue, threads and all
other state are untouched. -/
theorem start_while_running_noop (s : Mgr) (h : s.running = true) : start s = s := by
  unfold start
  rw [if_pos h]

/-- Witness for C6 at a concrete running state with accumulated state. -/
theorem start_while_running_noop_witness :
    start
      { running := true, paused := false, workerAlive := true,
        active := [⟨0, 0, some 3⟩], pending := [HandoffItem.real 1 4],
        results := [(1, "hello")], transcriptFile := some "hello",
        storage := {3, 4}, attempted := [], unlinkLog := [] } =
      { running := true, paused := false, workerAlive := true,
        active := [⟨0, 0, some 3⟩], pending := [HandoffItem.real 1 4],
        results := [(1, "hello")], transcriptFile := some "hello",
        storage := {3, 4}, attempted := [], unlinkLog := [] } :=
  start_while_running_noop _ rfl

/-- C7: a capture that reads zero audio blocks produces no artifact
(`file_path` stays `none`), and its watcher files no handoff item, so the
segment contributes no result entry, no transcript text and no storage
artifact. -/
theorem empty_capture_contributes_nothing (e : Bool) (fresh : ℕ) (seg : Seg) (s : Mgr)
    (hnone : seg.filePath = none) :
    segmentRun e [] fresh = none ∧
      (watchSegment seg s).pending = s.pending ∧
      (watchSegment seg s).results = s.results ∧
      (watchSegment seg s).transcriptFile = s.transcriptFile ∧
      (watchSegment seg s).storage = s.storage := by
  refine ⟨by cases e <;> rfl, ?_, ?_, ?_, ?_⟩ <;>
    · simp only [watchSegment, hnone]
      split <;> rfl

/-- Witness for C7: a segment that captured nothing, in a running session. -/
theorem empty_capture_contributes_nothing_witness :
    segmentRun false [] 9 = none ∧
      (watchSegment ⟨2, 12, none⟩
        { running := true, paused := false, workerAlive := true,
          active := [⟨2, 12, none⟩], pending := [], results := [(1, "a")],
          transcriptFile := some "a", storage := ∅, attempted := [],
          unlinkLog := [] }).pending = [] ∧
      (watchSegment ⟨2, 12, none⟩
        { running := true, paused := false, workerAlive := true,
          active := [⟨2, 12, none⟩], pending := [], results := [(1, "a")],
          transcriptFile := some "a", storage := ∅, attempted := [],
          unlinkLog := [] }).results = [(1, "a")] ∧
      (watchSegment ⟨2, 12, none⟩
        { running := true, paused := false, workerAlive := true,
          active := [⟨2, 12, none⟩], pending := [], results := [(1, "a")],
          transcriptFile := some "a", storage := ∅, attempted := [],
          unlinkLog := [] }).transcriptFile = some "a" ∧
      (watchSegment ⟨2, 12, none⟩
        { running := true, paused := false, workerAlive := true,
          active := [⟨2, 12, none⟩], pending := [], results := [(1, "a")],
          transcriptFile := some "a", storage := ∅, attempted := [],
          unlinkLog := [] }).storage = ∅ :=
  empty_capture_contributes_nothing false 9 ⟨2, 12, none⟩ _ rfl

theorem resume_results (s : Mgr) : (resume s).results = s.results := by
  unfold resume
  split
  · rfl
  · split <;> rfl

theorem resume_transcriptFile (s : Mgr) : (resume s).transcriptFile = s.transcriptFile := by
  unfold resume
  split
  · rfl
  · split <;> rfl

theorem shutdown_results_append (maxRetries : ℕ) (client : ℕ → ℕ → TOutcome)
    (paused : Bool) (s : Mgr) :
    ∃ t, (shutdown maxRetries client paused s).results = s.results ++ t := by
  simp only [shutdown]
  split
  · obtain ⟨t, ht⟩ := workerDrain_results_append maxRetries client
      ((stopActiveSegments { s with paused := paused, running := false }).pending ++
        [HandoffItem.sentinel]).length
      { stopActiveSegments { s with paused := paused, running := false } with
        pending := (stopActiveSegments { s with paused := paused, running := false }).pending ++
          [HandoffItem.sentinel] }
    exact ⟨t, ht⟩
  · exact ⟨[], by simp [stopActiveSegments_results]⟩

/-- C5: `pause()` from a Recording session followed by `resume()` clears
nothing: the results accumulated before the pause stay as an initial segment
of the result set (the pause may only have flushed still-active segments on
top of them); when pause finds no active segment and an empty handoff queue
the pair is the identity on the whole state; and segments processed after
the resume only append to the existing result set. -/
theorem pause_resume_preserves_results (maxRetries : ℕ) (client : ℕ → ℕ → TOutcome)
    (s : Mgr) (hrun : s.running = true) :
    (∃ t, (resume (pause maxRetries client s)).results = s.results ++ t) ∧
      (s.paused = false → s.workerAlive = true → s.active = [] → s.pending = [] →
        resume (pause maxRetries client s) = s) ∧
      (∀ u : Mgr, ∀ ts q : ℕ,
        (processReal maxRetries client ts q u).results = u.results ∨
          ∃ e, (processReal maxRetries client ts q u).results = u.results ++ [e]) := by
  refine ⟨?_, ?_, ?_⟩
  · rw [resume_results]
    unfold pause
    rw [if_pos hrun]
    obtain ⟨t, ht⟩ := shutdown_results_append maxRetries client true s
    exact ⟨t, ht⟩
  · intro hp hw ha hpend
    obtain ⟨run, pau, wa, act, pen, res, tf, st, att, ul⟩ := s
    dsimp only at hrun hp hw ha hpend
    subst hrun
    subst hp
    subst hw
    subst ha
    subst hpend
    rfl
  · intro u ts q
    rw [processReal_results]
    split
    · exact Or.inl rfl
    · exact Or.inr ⟨_, rfl⟩

/-- Witness for C5: a quiescent recording session with accumulated results. -/
theorem pause_resume_preserves_results_witness :
    (∃ t, (resume (pause 1 (fun _ _ => TOutcome.ok "x")
      { running := true, paused := false, workerAlive := true, active := [],
        pending := [], results := [(1, "hello")], transcriptFile := some "hello",
        storage := ∅, attempted := [], unlinkLog := [] })).results =
        [(1, "hello")] ++ t) ∧
      ((false : Bool) = false → (true : Bool) = true → ([] : List Seg) = [] →
        ([] : List HandoffItem) = [] →
        resume (pause 1 (fun _ _ => TOutcome.ok "x")
          { running := true, paused := false, workerAlive := true, active := [],
            pending := [], results := [(1, "hello")], transcriptFile := some "hello",
            storage := ∅, attempted := [], unlinkLog := [] }) =
          { running := true, paused := false, workerAlive := true, active := [],
            pending := [], results := [(1, "hello")], transcriptFile := some "hello",
            storage := ∅, attempted := [], unlinkLog := [] }) ∧
      (∀ u : Mgr, ∀ ts q : ℕ,
        (processReal 1 (fun _ _ => TOutcome.ok "x") ts q u).results = u.results ∨
          ∃ e, (processReal 1 (fun _ _ => TOutcome.ok "x") ts q u).results =
            u.results ++ [e]) :=
  pause_resume_preserves_results 1 (fun _ _ => TOutcome.ok "x") _ rfl

theorem workerDrain_empty_preserved (maxRetries : ℕ) (client : ℕ → ℕ → TOutcome)
    (hcl : ∀ q, transcribeSingle maxRetries (client q) = "") :
    ∀ fuel s, s.results = [] → s.transcriptFile = none →
      (workerDrain maxRetries client fuel s).results = [] ∧
        (workerDrain maxRetries client fuel s).transcriptFile = none := by
  intro fuel
  induction fuel with
  | zero => intro s h1 h2; exact ⟨h1, h2⟩
  | succ fuel ih =>
      intro s h1 h2
      rw [workerDrain]
      cases hx : extractMin s.pending with
      | none => exact ⟨h1, h2⟩
      | some v =>
          obtain ⟨x, rest⟩ := v
          cases x with
          | sentinel => exact ⟨h1, h2⟩
          | real ts p =>
              apply ih
              · rw [processReal_results, hcl p, if_pos rfl]
                exact h1
              · rw [processReal_transcriptFile, hcl p, if_pos rfl]
                exact h2

/-- C10: when the result set is empty the write step performs no write at
all (the state, transcript file included, is untouched); a transcription
attempt yielding the empty string adds no result entry and leaves the
transcript file alone; and after `start()` deletes the transcript file,
`read_transcript()` returns the empty string and keeps doing so while every
transcription attempt returns empty text. -/
theorem empty_results_no_write (maxRetries : ℕ) (client : ℕ → ℕ → TOutcome)
    (s u : Mgr) (ts q : ℕ)
    (hres : s.results = []) (hu : u.running = false)
    (hcl : ∀ r, transcribeSingle maxRetries (client r) = "") :
    writeTranscript s = s ∧
      (∀ v : Mgr, (processReal maxRetries client ts q v).results = v.results ∧
        (processReal maxRetries client ts q v).transcriptFile = v.transcriptFile) ∧
      readTranscript (start u) = "" ∧
      (∀ fuel, readTranscript (workerDrain maxRetries client fuel (start u)) = "") := by
  have hstart : (start u).results = [] ∧ (start u).transcriptFile = none := by
    unfold start
    rw [if_neg (by rw [hu]; exact Bool.false_ne_true)]
    exact ⟨rfl, rfl⟩
  refine ⟨?_, ?_, ?_, ?_⟩
  · simp only [writeTranscript, hres]
    rfl
  · intro v
    constructor
    · rw [processReal_results, hcl q, if_pos rfl]
    · rw [processReal_transcriptFile, hcl q, if_pos rfl]
  · unfold readTranscript
    rw [hstart.2]
  · intro fuel
    unfold readTranscript
    rw [(workerDrain_empty_preserved maxRetries client hcl fuel (start u) hstart.1 hstart.2).2]

/-- Witness for C10: an always-failing client, an idle manager, an empty
result list. -/
theorem empty_results_no_write_witness :
    writeTranscript
      { running := false, paused := false, workerAlive := false, active := [],
        pending := [], results := [], transcriptFile := none, storage := ∅,
        attempted := [], unlinkLog := [] } =
      { running := false, paused := false, workerAlive := false, active := [],
        pending := [], results := [], transcriptFile := none, storage := ∅,
        attempted := [], unlinkLog := [] } ∧
      (∀ v : Mgr, (processReal 1 (fun _ _ => TOutcome.err) 3 8 v).results = v.results ∧
        (processReal 1 (fun _ _ => TOutcome.err) 3 8 v).transcriptFile = v.transcriptFile) ∧
      readTranscript (start
        { running := false, paused := true, workerAlive := false, active := [],
          pending := [HandoffItem.real 2 8], results := [(1, "old")],
          transcriptFile := some "old", storage := {8}, attempted := [],
          unlinkLog := [] }) = "" ∧
      (∀ fuel, readTranscript (workerDrain 1 (fun _ _ => TOutcome.err) fuel (start
        { running := false, paused := true, workerAlive := false, active := [],
          pending := [HandoffItem.real 2 8], results := [(1, "old")],
          transcriptFile := some "old", storage := {8}, attempted := [],
          unlinkLog := [] })) = "") :=
  empty_results_no_write 1 (fun _ _ => TOutcome.err) _ _ 3 8 rfl rfl (fun _ => rfl)

/-- C3: transcription of one handoff item is attempted at most
`max_retries + 1` times, rate-limit and generic failures drawing on the
same budget; a client that fails on every attempt up to `max_retries - 1`
and succeeds on attempt `max_retries` gets its text into the result set;
a client that fails on every attempt yields the empty string — the item
adds no result entry and (the loop being a total function) no exception
reaches the caller. -/
theorem transcribe_retry_budget (maxRetries : ℕ) (client : ℕ → TOutcome) (t : String) :
    attemptsUsed maxRetries client ≤ maxRetries + 1 ∧
      ((∀ i, i < maxRetries → (client i).isFailure = true) →
        client maxRetries = .ok t → t ≠ "" →
        transcribeSingle maxRetries client = t ∧
          ∀ (client2 : ℕ → ℕ → TOutcome) (ts q : ℕ) (u : Mgr), client2 q = client →
            (processReal maxRetries client2 ts q u).results = u.results ++ [(ts, t.trim)]) ∧
      ((∀ i, i ≤ maxRetries → (client i).isFailure = true) →
        transcribeSingle maxRetries client = "" ∧
          ∀ (client2 : ℕ → ℕ → TOutcome) (ts q : ℕ) (u : Mgr), client2 q = client →
            (processReal maxRetries client2 ts q u).results = u.results) := by
  refine ⟨attemptsLoop_le client maxRetries 0, ?_, ?_⟩
  · intro hfail hok hne
    have heq : transcribeSingle maxRetries client = t := by
      apply transcribeLoop_fail_then_ok client t maxRetries 0
      · intro i h1 h2
        exact hfail i (by omega)
      · rw [Nat.zero_add]
        exact hok
    refine ⟨heq, ?_⟩
    intro client2 ts q u hc
    rw [processReal_results, hc, heq, if_neg hne]
  · intro hfail
    have heq : transcribeSingle maxRetries client = "" := by
      apply transcribeLoop_all_fail client maxRetries 0
      intro i h1 h2
      exact hfail i (by omega)
    refine ⟨heq, ?_⟩
    intro client2 ts q u hc
    rw [processReal_results, hc, heq, if_pos rfl]

/-- Witness for C3: budget 2; one client fails with a rate limit then a
generic error then succeeds, one client always fails. -/
theorem transcribe_retry_budget_witness :
    (attemptsUsed 2 (fun i =>
        if i = 0 then TOutcome.rateLimited
        else if i = 1 then TOutcome.err else TOutcome.ok "hi") ≤ 3 ∧
      transcribeSingle 2 (fun i =>
        if i = 0 then TOutcome.rateLimited
        else if i = 1 then TOutcome.err else TOutcome.ok "hi") = "hi" ∧
      (processReal 2 (fun _ i =>
        if i = 0 then TOutcome.rateLimited
        else if i = 1 then TOutcome.err else TOutcome.ok "hi") 4 9
        { running := true, paused := false, workerAlive := true, active := [],
          pending := [], results := [], transcriptFile := none, storage := {9},
          attempted := [], unlinkLog := [] }).results =
        [] ++ [(4, "hi".trim)]) ∧
      (transcribeSingle 2 (fun i =>
        if i = 0 then TOutcome.rateLimited else TOutcome.err) = "" ∧
      (processReal 2 (fun _ i =>
        if i = 0 then TOutcome.rateLimited else TOutcome.err) 4 9
        { running := true, paused := false, workerAlive := true, active := [],
          pending := [], results := [], transcriptFile := none, storage := {9},
          attempted := [], unlinkLog := [] }).results = []) := by
  have h1 := transcribe_retry_budget 2 (fun i =>
    if i = 0 then TOutcome.rateLimited
    else if i = 1 then TOutcome.err else TOutcome.ok "hi") "hi"
  have h2 := transcribe_retry_budget 2 (fun i =>
    if i = 0 then TOutcome.rateLimited else TOutcome.err) ""
  have h1b := h1.2.1 (by decide) rfl (by decide)
  have h2b := h2.2.2 (by decide)
  exact ⟨⟨h1.1, h1b.1, h1b.2 _ 4 9 _ rfl⟩, h2b.1, h2b.2 _ 4 9 _ rfl⟩

theorem sorted_strict_of_nodup_keys :
    ∀ l : List (ℕ × String), List.Sorted keyLE l → (l.map Prod.fst).Nodup →
      List.Pairwise (fun a b : ℕ × String => a.1 < b.1) l := by
  intro l
  induction l with
  | nil => intro _ _; exact List.Pairwise.nil
  | cons a l ih =>
      intro hs hnd
      rw [List.sorted_cons] at hs
      rw [List.map_cons, List.nodup_cons] at hnd
      refine List.Pairwise.cons ?_ (ih hs.2 hnd.2)
      intro b hb
      have hle := hs.1 b hb
      have hne : a.1 ≠ b.1 := fun he => hnd.1 (he ▸ List.mem_map_of_mem Prod.fst hb)
      exact lt_of_le_of_ne hle hne

theorem sortResults_eq_of_perm (r r' : List (ℕ × String))
    (hperm : List.Perm r r') (hnd : (r.map Prod.fst).Nodup) :
    sortResults r' = sortResults r := by
  have hnd' : (r'.map Prod.fst).Nodup := ((hperm.map Prod.fst).nodup_iff).mp hnd
  have hp : List.Perm (sortResults r') (sortResults r) :=
    (sortResults_perm r').trans (hperm.symm.trans (sortResults_perm r).symm)
  have hs1 := sorted_strict_of_nodup_keys (sortResults r') (sortResults_sorted r')
    (((sortResults_perm r').map Prod.fst).nodup_iff.mpr hnd')
  have hs2 := sorted_strict_of_nodup_keys (sortResults r) (sortResults_sorted r)
    (((sortResults_perm r).map Prod.fst).nodup_iff.mpr hnd)
  haveI : IsAntisymm (ℕ × String) (fun a b => a.1 < b.1) :=
    ⟨fun a b h1 h2 => absurd (lt_trans h1 h2) (lt_irrefl _)⟩
  exact List.eq_of_perm_of_sorted hp hs1 hs2

/-- C1: a transcript write at a state whose recorded result entries are
`r'` — any completion order, i.e. any permutation of the canonical entry
list `r` with pairwise-distinct capture-start timestamps — persists exactly
the space-joined texts of all entries recorded so far, sorted ascending by
capture-start timestamp; `sortResults r` is indeed sorted by start
timestamp and is a rearrangement of the recorded entries. -/
theorem transcript_is_sorted_join (r r' : List (ℕ × String)) (s : Mgr)
    (hperm : List.Perm r r') (hnd : (r.map Prod.fst).Nodup)
    (hs : s.results = r') (hne : r' ≠ []) :
    (writeTranscript s).transcriptFile =
      some (String.intercalate " " ((sortResults r).map Prod.snd)) ∧
      List.Sorted keyLE (sortResults r) ∧ List.Perm (sortResults r) r := by
  refine ⟨?_, sortResults_sorted r, sortResults_perm r⟩
  rw [writeTranscript_file_of_ne s (by rw [hs]; exact hne), hs]
  unfold transcriptText
  rw [sortResults_eq_of_perm r r' hperm hnd]

/-- Witness for C1: segment B (start 5, "world") finished before segment A
(start 1, "hello"); the write still persists "hello world". -/
theorem transcript_is_sorted_join_witness :
    (writeTranscript
      { running := true, paused := false, workerAlive := true, active := [],
        pending := [], results := [(5, "world"), (1, "hello")],
        transcriptFile := none, storage := ∅, attempted := [],
        unlinkLog := [] }).transcriptFile =
      some (String.intercalate " "
        ((sortResults [(1, "hello"), (5, "world")]).map Prod.snd)) ∧
      List.Sorted keyLE (sortResults [(1, "hello"), (5, "world")]) ∧
      List.Perm (sortResults [(1, "hello"), (5, "world")]) [(1, "hello"), (5, "world")] :=
  transcript_is_sorted_join [(1, "hello"), (5, "world")] [(5, "world"), (1, "hello")] _
    (by decide) (by decide) rfl (by decide)

theorem cancel_storage (s : Mgr) :
    (cancel s).storage =
      (unlinkAll (s.pending.filterMap HandoffItem.path)
        { unlinkAll (s.active.filterMap Seg.filePath)
            { s with running := false, active := [] } with
          pending := [] }).storage := rfl

/-- C2: after `cancel()` the transcript reads as the empty string, the
result set is empty, no transcription attempt was made on the discarded
items, and no artifact of an active segment nor of a queued handoff item
remains on storage. -/
theorem cancel_clears_everything (s : Mgr) :
    readTranscript (cancel s) = "" ∧
      (cancel s).results = [] ∧
      (cancel s).attempted = s.attempted ∧
      (∀ seg ∈ s.active, ∀ p, seg.filePath = some p → p ∉ (cancel s).storage) ∧
      (∀ itm ∈ s.pending, ∀ ts p, itm = HandoffItem.real ts p →
        p ∉ (cancel s).storage) := by
  refine ⟨rfl, rfl, ?_, ?_, ?_⟩
  · show (unlinkAll _ _).attempted = s.attempted
    rw [unlinkAll_attempted]
    show (unlinkAll _ _).attempted = s.attempted
    rw [unlinkAll_attempted]
  · intro seg hseg p hp
    have hpA : p ∈ s.active.filterMap Seg.filePath :=
      List.mem_filterMap.mpr ⟨seg, hseg, hp⟩
    rw [cancel_storage]
    by_cases hst : p ∈ s.storage
    · apply unlinkAll_storage_not_mem
      exact (unlinkAll_hit (s.active.filterMap Seg.filePath)
        { s with running := false, active := [] } p hst hpA).1
    · apply unlinkAll_storage_not_mem
      apply unlinkAll_storage_not_mem
      exact hst
  · intro itm hmem ts p heq
    have hpP : p ∈ s.pending.filterMap HandoffItem.path :=
      List.mem_filterMap.mpr ⟨itm, hmem, by rw [heq]; rfl⟩
    rw [cancel_storage]
    by_cases hst : p ∈ (unlinkAll (s.active.filterMap Seg.filePath)
        { s with running := false, active := [] }).storage
    · exact (unlinkAll_hit (s.pending.filterMap HandoffItem.path)
        { unlinkAll (s.active.filterMap Seg.filePath)
            { s with running := false, active := [] } with
          pending := [] } p hst hpP).1
    · exact unlinkAll_storage_not_mem (s.pending.filterMap HandoffItem.path)
        { unlinkAll (s.active.filterMap Seg.filePath)
            { s with running := false, active := [] } with
          pending := [] } p hst

/-- Witness for C2, the spec's scenario: cancel mid-recording with two
active segments (artifacts 10 and 11) and one queued item (artifact 7). -/
theorem cancel_clears_everything_witness :
    readTranscript (cancel
      { running := true, paused := false, workerAlive := true,
        active := [⟨1, 0, some 10⟩, ⟨2, 12, some 11⟩],
        pending := [HandoffItem.real 3 7], results := [(3, "b")],
        transcriptFile := some "b", storage := ({10, 11, 7} : Finset ℕ),
        attempted := [], unlinkLog := [] }) = "" ∧
      (cancel
      { running := true, paused := false, workerAlive := true,
        active := [⟨1, 0, some 10⟩, ⟨2, 12, some 11⟩],
        pending := [HandoffItem.real 3 7], results := [(3, "b")],
        transcriptFile := some "b", storage := ({10, 11, 7} : Finset ℕ),
        attempted := [], unlinkLog := [] }).results = [] ∧
      (cancel
      { running := true, paused := false, workerAlive := true,
        active := [⟨1, 0, some 10⟩, ⟨2, 12, some 11⟩],
        pending := [HandoffItem.real 3 7], results := [(3, "b")],
        transcriptFile := some "b", storage := ({10, 11, 7} : Finset ℕ),
        attempted := [], unlinkLog := [] }).attempted = [] ∧
      10 ∉ (cancel
      { running := true, paused := false, workerAlive := true,
        active := [⟨1, 0, some 10⟩, ⟨2, 12, some 11⟩],
        pending := [HandoffItem.real 3 7], results := [(3, "b")],
        transcriptFile := some "b", storage := ({10, 11, 7} : Finset ℕ),
        attempted := [], unlinkLog := [] }).storage ∧
      11 ∉ (cancel
      { running := true, paused := false, workerAlive := true,
        active := [⟨1, 0, some 10⟩, ⟨2, 12, some 11⟩],
        pending := [HandoffItem.real 3 7], results := [(3, "b")],
        transcriptFile := some "b", storage := ({10, 11, 7} : Finset ℕ),
        attempted := [], unlinkLog := [] }).storage ∧
      7 ∉ (cancel
      { running := true, paused := false, workerAlive := true,
        active := [⟨1, 0, some 10⟩, ⟨2, 12, some 11⟩],
        pending := [HandoffItem.real 3 7], results := [(3, "b")],
        transcriptFile := some "b", storage := ({10, 11, 7} : Finset ℕ),
        attempted := [], unlinkLog := [] }).storage := by
  have h := cancel_clears_everything
    { running := true, paused := false, workerAlive := true,
      active := [⟨1, 0, some 10⟩, ⟨2, 12, some 11⟩],
      pending := [HandoffItem.real 3 7], results := [(3, "b")],
      transcriptFile := some "b", storage := ({10, 11, 7} : Finset ℕ),
      attempted := [], unlinkLog := [] }
  exact ⟨h.1, h.2.1, h.2.2.1,
    h.2.2.2.1 ⟨1, 0, some 10⟩ (by decide) 10 rfl,
    h.2.2.2.1 ⟨2, 12, some 11⟩ (by decide) 11 rfl,
    h.2.2.2.2 (HandoffItem.real 3 7) (by decide) 3 7 rfl⟩

/-- C9: under the schedule's timing model — `_schedule` spawns segment `k`
at time `k * gap` and `_watch_segment` removes it from the active set once
its capture ends at most `dur` later — the number of concurrently active
segments never exceeds `ceil(dur / gap)`; with the default parameters
(duration 15, gap 12) the bound is 2. -/
theorem active_segments_bounded (gap dur t : ℕ) (hg : 0 < gap) :
    (activeAt gap dur t).card ≤ ceilDivNat dur gap := by
  by_cases hd : dur = 0
  · have hempty : activeAt gap dur t = ∅ := by
      apply Finset.eq_empty_of_forall_not_mem
      intro k hk
      rw [activeAt, Finset.mem_filter] at hk
      omega
    rw [hempty]
    exact Nat.zero_le _
  rcases Finset.eq_empty_or_nonempty (activeAt gap dur t) with he | hne
  · rw [he]
    exact Nat.zero_le _
  have hd1 : 1 ≤ dur := Nat.one_le_iff_ne_zero.mpr hd
  set m := (activeAt gap dur t).min' hne with hm
  have hmmem : m ∈ activeAt gap dur t := Finset.min'_mem _ hne
  have hmprop := hmmem
  rw [activeAt, Finset.mem_filter, spawnTime] at hmprop
  have hsub : activeAt gap dur t ⊆ Finset.Icc m (m + (dur - 1) / gap) := by
    intro k hk
    have hkprop := hk
    rw [activeAt, Finset.mem_filter, spawnTime] at hkprop
    rw [Finset.mem_Icc]
    refine ⟨Finset.min'_le _ k hk, ?_⟩
    have hmk : m ≤ k := Finset.min'_le _ k hk
    have hlt : k * gap < m * gap + dur := lt_of_le_of_lt hkprop.2.1 hmprop.2.2
    have hmul : (k - m) * gap < dur := by
      rw [Nat.sub_mul]
      have : m * gap ≤ k * gap := Nat.mul_le_mul_right gap hmk
      omega
    have hdiv : k - m ≤ (dur - 1) / gap := by
      rw [Nat.le_div_iff_mul_le hg]
      omega
    omega
  have hcard := Finset.card_le_card hsub
  rw [Nat.card_Icc] at hcard
  have hceil : (dur - 1) / gap + 1 = ceilDivNat dur gap := by
    rw [ceilDivNat]
    rw [show dur + gap - 1 = dur - 1 + gap by omega]
    rw [Nat.add_div_right _ hg]
  omega

/-- Witness for C9 at the defaults: gap 12, duration 15, an arbitrary
instant (t = 24): at most 2 segments are active, and the bound is 2. -/
theorem active_segments_bounded_witness :
    (activeAt 12 15 24).card ≤ ceilDivNat 15 12 ∧ ceilDivNat 15 12 = 2 :=
  ⟨active_segments_bounded 12 15 24 (by decide), by decide⟩

/-! ### The exactly-once-deletion invariant is preserved by every step -/

theorem pendingPaths_cons_real (ts q : ℕ) (l : List HandoffItem) :
    (HandoffItem.real ts q :: l).filterMap HandoffItem.path =
      q :: l.filterMap HandoffItem.path := rfl

theorem pendingPaths_cons_sentinel (l : List HandoffItem) :
    (HandoffItem.sentinel :: l).filterMap HandoffItem.path =
      l.filterMap HandoffItem.path := rfl

theorem artifactInv_workerStep1 (maxRetries : ℕ) (client : ℕ → ℕ → TOutcome)
    (p : ℕ) (s : Mgr) (h : ArtifactInv p s) :
    ArtifactInv p (workerStep1 maxRetries client s) := by
  unfold workerStep1
  cases hx : extractMin s.pending with
  | none => exact h
  | some v =>
      obtain ⟨x, rest⟩ := v
      have hperm := extractMin_perm s.pending x rest hx
      have hpathperm := (hperm.filterMap HandoffItem.path).count_eq p
      cases x with
      | sentinel =>
          rw [pendingPaths_cons_sentinel] at hpathperm
          obtain ⟨h1, h2⟩ := h
          unfold ArtifactInv locCount activePaths pendingPaths at *
          dsimp only
          constructor
          · rw [← hpathperm]
            exact h1
          · rw [← hpathperm]
            exact h2
      | real ts q =>
          rw [pendingPaths_cons_real] at hpathperm
          obtain ⟨h1, h2⟩ := h
          unfold ArtifactInv locCount activePaths pendingPaths at *
          rw [processReal_active, processReal_pending, processReal_storage,
            processReal_unlinkLog]
          dsimp only
          by_cases hpq : p = q
          · subst hpq
            rw [List.count_cons_self] at hpathperm
            have hloc1 : List.count p (s.active.filterMap Seg.filePath) = 0 ∧
                List.count p (rest.filterMap HandoffItem.path) = 0 ∧
                List.count p s.unlinkLog = 0 := by omega
            have hmem : p ∈ s.storage := h2.mpr (by omega)
            rw [if_pos hmem]
            constructor
            · rw [hloc1.1, hloc1.2.1]
              simp [List.count_append, hloc1.2.2]
            · constructor
              · intro hc
                exact absurd hc (Finset.not_mem_erase p s.storage)
              · intro hc
                omega
          · rw [List.count_cons_of_ne hpq] at hpathperm
            have hstor : p ∈ s.storage.erase q ↔ p ∈ s.storage := by
              rw [Finset.mem_erase]
              exact ⟨fun hh => hh.2, fun hh => ⟨hpq, hh⟩⟩
            have hlog : List.count p (if q ∈ s.storage then s.unlinkLog ++ [q]
                else s.unlinkLog) = List.count p s.unlinkLog := by
              split
              · rw [List.count_append]
                have : List.count p [q] = 0 := by
                  rw [List.count_singleton]
                  simp [beq_iff_eq]
                  intro hqp
                  exact absurd hqp.symm hpq
                omega
              · rfl
            rw [hstor, hlog, ← hpathperm]
            exact ⟨h1, h2⟩

theorem watchSegment_notmem (seg : Seg) (s : Mgr) (hmem : seg ∉ s.active) :
    watchSegment seg s = s := by
  simp only [watchSegment, if_neg hmem]

theorem watchSegment_none (seg : Seg) (s : Mgr) (hmem : seg ∈ s.active)
    (hfp : seg.filePath = none) :
    watchSegment seg s = { s with active := s.active.erase seg } := by
  simp only [watchSegment, if_pos hmem, hfp]

theorem watchSegment_flush (seg : Seg) (s : Mgr) (q : ℕ) (hmem : seg ∈ s.active)
    (hfp : seg.filePath = some q) (hst : q ∈ s.storage) :
    watchSegment seg s =
      { s with active := s.active.erase seg,
               pending := s.pending ++ [HandoffItem.real seg.startedAt q] } := by
  simp only [watchSegment, if_pos hmem, hfp]
  rw [if_pos hst]

theorem watchSegment_noflush (seg : Seg) (s : Mgr) (q : ℕ) (hmem : seg ∈ s.active)
    (hfp : seg.filePath = some q) (hst : q ∉ s.storage) :
    watchSegment seg s = { s with active := s.active.erase seg } := by
  simp only [watchSegment, if_pos hmem, hfp]
  rw [if_neg hst]

theorem artifactInv_watchSegment (seg : Seg) (p : ℕ) (s : Mgr) (h : ArtifactInv p s) :
    ArtifactInv p (watchSegment seg s) := by
  by_cases hmem : seg ∈ s.active
  · have hperm : List.Perm s.active (seg :: s.active.erase seg) :=
      List.perm_cons_erase hmem
    have hactperm := (hperm.filterMap Seg.filePath).count_eq p
    obtain ⟨h1, h2⟩ := h
    unfold ArtifactInv locCount activePaths pendingPaths at *
    cases hfp : seg.filePath with
    | none =>
        rw [watchSegment_none seg s hmem hfp]
        dsimp only
        rw [List.filterMap_cons, hfp] at hactperm
        dsimp only at hactperm
        rw [← hactperm]
        exact ⟨h1, h2⟩
    | some q =>
        rw [List.filterMap_cons, hfp] at hactperm
        dsimp only at hactperm
        rw [List.count_cons] at hactperm
        by_cases hst : q ∈ s.storage
        · rw [watchSegment_flush seg s q hmem hfp hst]
          dsimp only
          simp only [List.filterMap_append, List.count_append, pendingPaths_cons_real,
            List.filterMap_nil]
          have hcq : List.count p [q] = if q == p then 1 else 0 := List.count_singleton p q
          rw [hcq]
          by_cases hpq : p = q
          · subst hpq
            have hone : (if (p == p) = true then (1 : ℕ) else 0) = 1 := by simp
            rw [hone] at hactperm ⊢
            constructor
            · omega
            · constructor
              · intro hc
                have := h2.mp hc
                omega
              · intro hc
                apply h2.mpr
                omega
          · have hbe : (q == p) = false := by
              simp only [beq_eq_false_iff_ne, ne_eq]
              intro hqp
              exact absurd hqp.symm hpq
            have hzero : (if (false : Bool) = true then (1 : ℕ) else 0) = 0 := by simp
            rw [hbe] at hactperm ⊢
            rw [hzero] at hactperm ⊢
            constructor
            · omega
            · constructor
              · intro hc
                have := h2.mp hc
                omega
              · intro hc
                apply h2.mpr
                omega
        · rw [watchSegment_noflush seg s q hmem hfp hst]
          dsimp only
          by_cases hpq : p = q
          · subst hpq
            have hone : (if (p == p) = true then (1 : ℕ) else 0) = 1 := by simp
            rw [hone] at hactperm
            have hloc : List.count p (s.active.filterMap Seg.filePath) +
                List.count p (s.pending.filterMap HandoffItem.path) = 1 := by omega
            exact absurd (h2.mpr hloc) hst
          · have hbe : (q == p) = false := by
              simp only [beq_eq_false_iff_ne, ne_eq]
              intro hqp
              exact absurd hqp.symm hpq
            have hzero : (if (false : Bool) = true then (1 : ℕ) else 0) = 0 := by simp
            rw [hbe, hzero] at hactperm
            rw [Nat.add_zero] at hactperm
            rw [← hactperm]
            exact ⟨h1, h2⟩
  · rw [watchSegment_notmem seg s hmem]
    exact h

theorem count_setPath (seg : Seg) (q p : ℕ) (hpq : p ≠ q) (hnone : seg.filePath = none) :
    ∀ l : List Seg,
      ((l.map (fun t => if t = seg then { t with filePath := some q } else t)).filterMap
        Seg.filePath).count p = (l.filterMap Seg.filePath).count p := by
  intro l
  induction l with
  | nil => rfl
  | cons a l ih =>
      rw [List.map_cons]
      by_cases ha : a = seg
      · rw [if_pos ha]
        rw [List.filterMap_cons, List.filterMap_cons]
        have hfa : a.filePath = none := ha ▸ hnone
        rw [hfa]
        dsimp only
        rw [List.count_cons_of_ne hpq]
        exact ih
      · rw [if_neg ha]
        rw [List.filterMap_cons, List.filterMap_cons]
        cases hfa : a.filePath with
        | none => exact ih
        | some r =>
            dsimp only
            rw [List.count_cons, List.count_cons, ih]

theorem artifactInv_segFinish (seg : Seg) (q p : ℕ) (s : Mgr)
    (hnone : seg.filePath = none) (hstore : q ∉ s.storage)
    (hloc : locCount q s = 0) (hlog : q ∉ s.unlinkLog)
    (h : ArtifactInv p s) : ArtifactInv p (segFinish seg q s) := by
  by_cases hpq : p = q
  · subst hpq
    exfalso
    have := h.1
    rw [hloc, List.count_eq_zero.mpr hlog] at this
    exact absurd this (by omega)
  · obtain ⟨h1, h2⟩ := h
    unfold ArtifactInv locCount activePaths pendingPaths at *
    unfold segFinish
    dsimp only
    rw [count_setPath seg q p hpq hnone]
    constructor
    · exact h1
    · rw [Finset.mem_insert]
      constructor
      · intro hc
        rcases hc with hc | hc
        · exact absurd hc hpq
        · exact h2.mp hc
      · intro hc
        exact Or.inr (h2.mpr hc)

theorem count_flush_eq (st : Finset ℕ) (p : ℕ) (hp : p ∈ st) :
    ∀ l : List Seg,
      ((l.filterMap (fun seg => match seg.filePath with
          | some q => if q ∈ st then some (HandoffItem.real seg.startedAt q) else none
          | none => none)).filterMap HandoffItem.path).count p =
        (l.filterMap Seg.filePath).count p := by
  intro l
  induction l with
  | nil => rfl
  | cons a l ih =>
      rw [List.filterMap_cons, List.filterMap_cons]
      cases hfa : a.filePath with
      | none => exact ih
      | some q =>
          dsimp only
          by_cases hq : q ∈ st
          · rw [if_pos hq]
            dsimp only
            rw [pendingPaths_cons_real]
            rw [List.count_cons, List.count_cons, ih]
          · rw [if_neg hq]
            dsimp only
            have hpq : p ≠ q := fun he => hq (he ▸ hp)
            rw [List.count_cons_of_ne hpq]
            exact ih

theorem count_flush_le (st : Finset ℕ) (p : ℕ) :
    ∀ l : List Seg,
      ((l.filterMap (fun seg => match seg.filePath with
          | some q => if q ∈ st then some (HandoffItem.real seg.startedAt q) else none
          | none => none)).filterMap HandoffItem.path).count p ≤
        (l.filterMap Seg.filePath).count p := by
  intro l
  induction l with
  | nil => exact le_refl 0
  | cons a l ih =>
      rw [List.filterMap_cons, List.filterMap_cons]
      cases hfa : a.filePath with
      | none => exact ih
      | some q =>
          dsimp only
          by_cases hq : q ∈ st
          · rw [if_pos hq]
            dsimp only
            rw [pendingPaths_cons_real]
            rw [List.count_cons, List.count_cons]
            omega
          · rw [if_neg hq]
            dsimp only
            rw [List.count_cons]
            omega

theorem artifactInv_stopActiveSegments (p : ℕ) (s : Mgr) (h : ArtifactInv p s) :
    ArtifactInv p (stopActiveSegments s) := by
  obtain ⟨h1, h2⟩ := h
  unfold ArtifactInv locCount activePaths pendingPaths at *
  unfold stopActiveSegments
  dsimp only
  rw [List.filterMap_nil, List.count_nil, List.filterMap_append, List.count_append]
  by_cases hp : p ∈ s.storage
  · rw [count_flush_eq s.storage p hp s.active]
    constructor
    · omega
    · constructor
      · intro hc
        have := h2.mp hc
        omega
      · intro hc
        apply h2.mpr
        omega
  · have hloc0 : List.count p (s.active.filterMap Seg.filePath) +
        List.count p (s.pending.filterMap HandoffItem.path) = 0 := by
      by_cases hl : List.count p (s.active.filterMap Seg.filePath) +
          List.count p (s.pending.filterMap HandoffItem.path) = 1
      · exact absurd (h2.mpr hl) hp
      · omega
    have hle := count_flush_le s.storage p s.active
    constructor
    · omega
    · constructor
      · intro hc
        exact absurd hc hp
      · intro hc
        omega

theorem cancel_unlinkLog (s : Mgr) :
    (cancel s).unlinkLog =
      (unlinkAll (s.pending.filterMap HandoffItem.path)
        { unlinkAll (s.active.filterMap Seg.filePath)
            { s with running := false, active := [] } with
          pending := [] }).unlinkLog := rfl

theorem cancel_active (s : Mgr) : (cancel s).active = [] := by
  show (unlinkAll _ _).active = []
  rw [unlinkAll_active]
  show (unlinkAll _ _).active = []
  rw [unlinkAll_active]

theorem cancel_pending (s : Mgr) :
    (cancel s).pending =
      if s.workerAlive then ([] : List HandoffItem) else [HandoffItem.sentinel] := rfl

theorem artifactInv_cancel (p : ℕ) (s : Mgr) (h : ArtifactInv p s) :
    ArtifactInv p (cancel s) := by
  obtain ⟨h1, h2⟩ := h
  unfold ArtifactInv locCount activePaths pendingPaths at *
  rw [cancel_active, cancel_pending, cancel_storage, cancel_unlinkLog]
  have hpend0 : List.count p ((if s.workerAlive = true then ([] : List HandoffItem)
      else [HandoffItem.sentinel]).filterMap HandoffItem.path) = 0 := by
    split <;> rfl
  rw [List.filterMap_nil, List.count_nil, hpend0]
  simp only [Nat.zero_add]
  have hlog1 : ({ s with running := false, active := [] } : Mgr).unlinkLog =
    s.unlinkLog := rfl
  by_cases hst : p ∈ s.storage
  · have hloc1 := h2.mp hst
    have hlogc : List.count p s.unlinkLog = 0 := by omega
    by_cases hpA : p ∈ s.active.filterMap Seg.filePath
    · have hcA : 0 < List.count p (s.active.filterMap Seg.filePath) :=
        List.count_pos_iff.mpr hpA
      have hcP : List.count p (s.pending.filterMap HandoffItem.path) = 0 := by omega
      have hhit := unlinkAll_hit (s.active.filterMap Seg.filePath)
        { s with running := false, active := [] } p hst hpA
      have hnot3 : p ∉ (unlinkAll (s.pending.filterMap HandoffItem.path)
          { unlinkAll (s.active.filterMap Seg.filePath)
              { s with running := false, active := [] } with
            pending := [] }).storage :=
        unlinkAll_storage_not_mem (s.pending.filterMap HandoffItem.path)
          { unlinkAll (s.active.filterMap Seg.filePath)
              { s with running := false, active := [] } with
            pending := [] } p hhit.1
      have hlog3 := unlinkAll_log_not_mem (s.pending.filterMap HandoffItem.path)
        { unlinkAll (s.active.filterMap Seg.filePath)
            { s with running := false, active := [] } with
          pending := [] } p hhit.1
      constructor
      · rw [hlog3]
        show List.count p (unlinkAll (s.active.filterMap Seg.filePath)
          { s with running := false, active := [] }).unlinkLog = 1
        rw [hhit.2, hlog1, hlogc]
      · exact iff_of_false hnot3 (by omega)
    · have hcA : List.count p (s.active.filterMap Seg.filePath) = 0 :=
        List.count_eq_zero.mpr hpA
      have hcP : 0 < List.count p (s.pending.filterMap HandoffItem.path) := by omega
      have hpP : p ∈ s.pending.filterMap HandoffItem.path := List.count_pos_iff.mp hcP
      have hmiss := unlinkAll_miss (s.active.filterMap Seg.filePath)
        { s with running := false, active := [] } p hpA
      have hs2mem : p ∈ (unlinkAll (s.active.filterMap Seg.filePath)
          { s with running := false, active := [] }).storage := hmiss.1.mpr hst
      have hhit := unlinkAll_hit (s.pending.filterMap HandoffItem.path)
        { unlinkAll (s.active.filterMap Seg.filePath)
            { s with running := false, active := [] } with
          pending := [] } p hs2mem hpP
      constructor
      · rw [hhit.2]
        show List.count p (unlinkAll (s.active.filterMap Seg.filePath)
          { s with running := false, active := [] }).unlinkLog + 1 = 1
        rw [hmiss.2, hlog1, hlogc]
      · exact iff_of_false hhit.1 (by omega)
  · have hloc0 : List.count p (s.active.filterMap Seg.filePath) +
        List.count p (s.pending.filterMap HandoffItem.path) = 0 := by
      by_cases hl : List.count p (s.active.filterMap Seg.filePath) +
          List.count p (s.pending.filterMap HandoffItem.path) = 1
      · exact absurd (h2.mpr hl) hst
      · omega
    have hlogc : List.count p s.unlinkLog = 1 := by omega
    have hs2not : p ∉ (unlinkAll (s.active.filterMap Seg.filePath)
        { s with running := false, active := [] }).storage :=
      unlinkAll_storage_not_mem _ _ p hst
    have hnot3 : p ∉ (unlinkAll (s.pending.filterMap HandoffItem.path)
        { unlinkAll (s.active.filterMap Seg.filePath)
            { s with running := false, active := [] } with
          pending := [] }).storage :=
      unlinkAll_storage_not_mem (s.pending.filterMap HandoffItem.path)
        { unlinkAll (s.active.filterMap Seg.filePath)
            { s with running := false, active := [] } with
          pending := [] } p hs2not
    have hlog3 := unlinkAll_log_not_mem (s.pending.filterMap HandoffItem.path)
      { unlinkAll (s.active.filterMap Seg.filePath)
          { s with running := false, active := [] } with
        pending := [] } p hs2not
    constructor
    · rw [hlog3]
      show List.count p (unlinkAll (s.active.filterMap Seg.filePath)
        { s with running := false, active := [] }).unlinkLog = 1
      rw [unlinkAll_log_not_mem (s.active.filterMap Seg.filePath)
        { s with running := false, active := [] } p hst, hlog1, hlogc]
    · exact iff_of_false hnot3 (by omega)

theorem artifactInv_step (maxRetries : ℕ) (client : ℕ → ℕ → TOutcome) (p : ℕ)
    (s s' : Mgr) (h : ArtifactInv p s) (hstep : Step maxRetries client s s') :
    ArtifactInv p s' := by
  cases hstep with
  | worker s => exact artifactInv_workerStep1 maxRetries client p s h
  | watch seg s => exact artifactInv_watchSegment seg p s h
  | finish seg q s hmem hnone hstore hloc hlog =>
      exact artifactInv_segFinish seg q p s hnone hstore hloc hlog h
  | stopSegs s => exact artifactInv_stopActiveSegments p s h
  | cancelStep s => exact artifactInv_cancel p s h

theorem artifactInv_stepStar (maxRetries : ℕ) (client : ℕ → ℕ → TOutcome) (p : ℕ)
    (s s' : Mgr) (h : ArtifactInv p s) (hsteps : StepStar maxRetries client s s') :
    ArtifactInv p s' := by
  induction hsteps with
  | refl => exact h
  | tail hab hbc ih => exact artifactInv_step maxRetries client p _ _ ih hbc

/-- C8: each segment artifact is deleted exactly once.  Along any
interleaving of transcriber-loop iterations, watcher filings, segment
finishes, stop-path flushes and `cancel` calls, an artifact holding the
ownership invariant is never deleted twice (the deletion log never counts
it twice), and once no active segment and no queued item references it any
more it has been deleted exactly once and is gone from storage; moreover a
dequeued item's artifact is deleted by the worker on every transcription
outcome. -/
theorem artifact_deleted_exactly_once (maxRetries : ℕ) (client : ℕ → ℕ → TOutcome)
    (p : ℕ) (s s' : Mgr) (hInv : ArtifactInv p s)
    (hsteps : StepStar maxRetries client s s') :
    s'.unlinkLog.count p ≤ 1 ∧
      (locCount p s' = 0 → s'.unlinkLog.count p = 1 ∧ p ∉ s'.storage) ∧
      (∀ ts q : ℕ, ∀ u : Mgr, q ∈ u.storage →
        q ∉ (processReal maxRetries client ts q u).storage ∧
          (processReal maxRetries client ts q u).unlinkLog.count q =
            u.unlinkLog.count q + 1) := by
  obtain ⟨h1, h2⟩ := artifactInv_stepStar maxRetries client p s s' hInv hsteps
  refine ⟨by omega, ?_, ?_⟩
  · intro h0
    refine ⟨by omega, ?_⟩
    intro hmem
    have := h2.mp hmem
    omega
  · intro ts q u hq
    constructor
    · rw [processReal_storage]
      exact Finset.not_mem_erase q u.storage
    · rw [processReal_unlinkLog, if_pos hq, List.count_append,
        List.count_singleton_self]

/-- Witness for C8: one queued artifact, cancelled; it is deleted exactly
once and vanishes from storage. -/
theorem artifact_deleted_exactly_once_witness :
    (cancel
      { running := true, paused := false, workerAlive := true, active := [],
        pending := [HandoffItem.real 5 7], results := [], transcriptFile := none,
        storage := {7}, attempted := [], unlinkLog := [] }).unlinkLog.count 7 ≤ 1 ∧
      (locCount 7 (cancel
        { running := true, paused := false, workerAlive := true, active := [],
          pending := [HandoffItem.real 5 7], results := [], transcriptFile := none,
          storage := {7}, attempted := [], unlinkLog := [] }) = 0 →
        (cancel
          { running := true, paused := false, workerAlive := true, active := [],
            pending := [HandoffItem.real 5 7], results := [], transcriptFile := none,
            storage := {7}, attempted := [], unlinkLog := [] }).unlinkLog.count 7 = 1 ∧
          7 ∉ (cancel
            { running := true, paused := false, workerAlive := true, active := [],
              pending := [HandoffItem.real 5 7], results := [], transcriptFile := none,
              storage := {7}, attempted := [], unlinkLog := [] }).storage) ∧
      (∀ ts q : ℕ, ∀ u : Mgr, q ∈ u.storage →
        q ∉ (processReal 0 (fun _ _ => TOutcome.err) ts q u).storage ∧
          (processReal 0 (fun _ _ => TOutcome.err) ts q u).unlinkLog.count q =
            u.unlinkLog.count q + 1) :=
  artifact_deleted_exactly_once 0 (fun _ _ => TOutcome.err) 7
    { running := true, paused := false, workerAlive := true, active := [],
      pending := [HandoffItem.real 5 7], results := [], transcriptFile := none,
      storage := {7}, attempted := [], unlinkLog := [] }
    (cancel
      { running := true, paused := false, workerAlive := true, active := [],
        pending := [HandoffItem.real 5 7], results := [], transcriptFile := none,
        storage := {7}, attempted := [], unlinkLog := [] })
    (by decide)
    (Relation.ReflTransGen.single (Step.cancelStep _))
